import Mathlib

/-!
Verification of `remotion-mcp-server` against its specification.

The development shallowly embeds the parts of the TypeScript source that the
claims refer to:

* `src/src/output/urlHandler.ts` — the local artifact store (`UrlHandler`):
  quota enforcement (`enforceQuotas`), LRU eviction (`findLRU`), the expiry
  sweep (`cleanup`), `store`, and the `GET /files/:filename` route.
* `src/src/render/engine.ts` — the render engine (`renderVideo`,
  `renderImage`) and the dynamic bundler (`DynamicBundler.bundle`,
  `DynamicBundler.hashCode`).

The store's `Map<string, FileEntry>` is modelled as a list of entries in
insertion order; `Date.now()` values, fresh UUIDs and random tokens are passed
in as parameters; filesystem writes are modelled by the tracked state (the
source swallows all unlink/rm errors, so the entry table is the authoritative
state).
-/

namespace RemotionMCP

/-- The `FileEntry` record of `urlHandler.ts` (the `metadata` passthrough field, an opaque
`Record<string, unknown>` never read by the handler, is omitted). -/
structure FileEntry where
  id : String
  filename : String
  filepath : String
  token : String
  mimeType : String
  size : Nat
  createdAt : Nat
  expiresAt : Nat
  lastAccessedAt : Nat
deriving DecidableEq, Repr

/-- The configuration fields of `UrlOutputConfig` used by the store. -/
structure UrlConfig where
  serveDir : String
  maxDiskBytes : Nat
  maxFiles : Nat
  ttlSeconds : Nat
deriving DecidableEq, Repr

/-- The part of `FileData` the store reads: MIME type and `buffer.length`. -/
structure FileData where
  mimeType : String
  bufLen : Nat
deriving DecidableEq, Repr

/-- Sum of the sizes of all tracked entries (the spec's `totalBytesOnDisk`,
computed in the source as `reduce((sum, f) => sum + f.size, 0)`). -/
def totalSize (files : List FileEntry) : Nat :=
  (files.map (fun f => f.size)).sum

/-- Embeds `UrlHandler.cleanup`: remove every entry with `now > expiresAt`. -/
def cleanupStep (now : Nat) (files : List FileEntry) : List FileEntry :=
  files.filter (fun e => decide (now ≤ e.expiresAt))

/-- Embeds `UrlHandler.findLRU`: scan all entries, keep the one with the strictly
smallest `lastAccessedAt` (first wins on ties), `null` on an empty store. -/
def findLRU : List FileEntry → Option FileEntry
  | [] => none
  | e :: es =>
      some (es.foldl
        (fun lru x => if x.lastAccessedAt < lru.lastAccessedAt then x else lru) e)

/-- Embeds `UrlHandler.removeFile`: delete the entry with the given id (the on-disk
unlink is best-effort and swallowed in the source). -/
def removeFile (i : String) (files : List FileEntry) : List FileEntry :=
  files.filter (fun e => !(e.id == i))

/-- One-step-per-eviction embedding of the disk-quota loop of
`enforceQuotas`:
`while (currentSize + incomingSize > maxDiskBytes && this.files.size > 0)`
evict the LRU entry. The fuel argument is instantiated with the list length,
which bounds the number of iterations (each one removes a tracked entry). -/
def evictSizeAux (maxDiskBytes incoming : Nat) : Nat → List FileEntry → List FileEntry
  | 0, l => l
  | fuel + 1, l =>
      match findLRU l with
      | none => l
      | some lru =>
          if maxDiskBytes < totalSize l + incoming then
            evictSizeAux maxDiskBytes incoming fuel (removeFile lru.id l)
          else l

/-- The disk-quota eviction loop of `enforceQuotas`. -/
def evictSize (maxDiskBytes incoming : Nat) (l : List FileEntry) : List FileEntry :=
  evictSizeAux maxDiskBytes incoming l.length l

/-- One-step-per-eviction embedding of the file-count loop of
`enforceQuotas`: `while (this.files.size >= this.config.maxFiles)` evict the
LRU entry, breaking when `findLRU` returns `null` (empty store). -/
def evictCountAux (maxFiles : Nat) : Nat → List FileEntry → List FileEntry
  | 0, l => l
  | fuel + 1, l =>
      match findLRU l with
      | none => l
      | some lru =>
          if maxFiles ≤ l.length then
            evictCountAux maxFiles fuel (removeFile lru.id l)
          else l

/-- The file-count eviction loop of `enforceQuotas`. -/
def evictCount (maxFiles : Nat) (l : List FileEntry) : List FileEntry :=
  evictCountAux maxFiles l.length l

/-- Embeds `UrlHandler.getExtension`. -/
def getExtension (mimeType : String) : String :=
  if mimeType == "video/mp4" then ".mp4"
  else if mimeType == "video/webm" then ".webm"
  else if mimeType == "image/gif" then ".gif"
  else if mimeType == "image/png" then ".png"
  else if mimeType == "image/jpeg" then ".jpg"
  else ".bin"

/-- The `FileEntry` that `UrlHandler.store` inserts: `tNow` is the
`Date.now()` read at line 133, `newId` the fresh UUID, `newToken` the random
token. -/
def mkEntry (cfg : UrlConfig) (tNow : Nat) (newId newToken : String)
    (file : FileData) : FileEntry :=
  { id := newId
    filename := newId ++ getExtension file.mimeType
    filepath := cfg.serveDir ++ "/" ++ newId ++ getExtension file.mimeType
    token := newToken
    mimeType := file.mimeType
    size := file.bufLen
    createdAt := tNow
    expiresAt := tNow + cfg.ttlSeconds * 1000
    lastAccessedAt := tNow }

/-- Result of `UrlHandler.store`, carrying the post-state of the entry table
in both cases (`tooLarge` is the `File too large` throw from
`enforceQuotas`, raised after the expiry sweep but before any eviction or
write). -/
inductive StoreResult
  | tooLarge (files : List FileEntry)
  | ok (files : List FileEntry) (entry : FileEntry)
deriving DecidableEq, Repr

/-- Embeds `UrlHandler.store` on an initialized store: run the expiry sweep, reject
oversize input, evict by disk quota then by file count, write the file and
insert the new entry. `tClean` is the `Date.now()` used by the sweep,
`tNow` the one used to build the entry. -/
def store (cfg : UrlConfig) (tClean tNow : Nat) (newId newToken : String)
    (file : FileData) (files : List FileEntry) : StoreResult :=
  let f1 := cleanupStep tClean files
  if cfg.maxDiskBytes < file.bufLen then
    .tooLarge f1
  else
    let f2 := evictCount cfg.maxFiles (evictSize cfg.maxDiskBytes file.bufLen f1)
    let entry := mkEntry cfg tNow newId newToken file
    .ok (f2 ++ [entry]) entry

/-- HTTP outcome of the `GET /files/:filename` route. -/
inductive GetStatus
  | notFound
  | forbidden
  | gone
  | success (mime : String)
deriving DecidableEq, Repr

/-- The `GET /files/:filename?token=...` route of `setupRoutes`: find the
first entry with the requested filename; `404` if absent, `403` on token
mismatch, `410` when `now > expiresAt`, otherwise update `lastAccessedAt`
and serve with the recorded MIME type. Returns the status and the post-state
of the entry table. -/
def handleGet (now : Nat) (filename token : String) (files : List FileEntry) :
    GetStatus × List FileEntry :=
  match files.find? (fun f => f.filename == filename) with
  | none => (.notFound, files)
  | some entry =>
      if !(entry.token == token) then (.forbidden, files)
      else if entry.expiresAt < now then (.gone, files)
      else
        (.success entry.mimeType,
         files.map (fun f =>
           if f.id == entry.id then { f with lastAccessedAt := now } else f))

end RemotionMCP
namespace RemotionMCP

/-- The fold in `findLRU` keeps either its accumulator or a list element. -/
theorem findLRU_foldl_mem (es : List FileEntry) (a : FileEntry) :
    es.foldl (fun lru x => if x.lastAccessedAt < lru.lastAccessedAt then x else lru) a = a ∨
    es.foldl (fun lru x => if x.lastAccessedAt < lru.lastAccessedAt then x else lru) a ∈ es := by
  induction es generalizing a with
  | nil => exact Or.inl rfl
  | cons b bs ih =>
    simp only [List.foldl_cons]
    rcases ih (if b.lastAccessedAt < a.lastAccessedAt then b else a) with h | h
    · rw [h]
      by_cases hb : b.lastAccessedAt < a.lastAccessedAt
      · rw [if_pos hb]; exact Or.inr (List.mem_cons_self b bs)
      · rw [if_neg hb]; exact Or.inl rfl
    · exact Or.inr (List.mem_cons_of_mem b h)

/-- The fold in `findLRU` returns a minimal `lastAccessedAt`. -/
theorem findLRU_foldl_min (es : List FileEntry) (a : FileEntry) :
    (es.foldl (fun lru x => if x.lastAccessedAt < lru.lastAccessedAt then x else lru) a).lastAccessedAt ≤ a.lastAccessedAt ∧
    ∀ x ∈ es,
      (es.foldl (fun lru x => if x.lastAccessedAt < lru.lastAccessedAt then x else lru) a).lastAccessedAt ≤ x.lastAccessedAt := by
  induction es generalizing a with
  | nil => exact ⟨le_refl _, by intro x hx; cases hx⟩
  | cons b bs ih =>
    simp only [List.foldl_cons]
    obtain ⟨h1, h2⟩ := ih (if b.lastAccessedAt < a.lastAccessedAt then b else a)
    constructor
    · refine le_trans h1 ?_
      by_cases hb : b.lastAccessedAt < a.lastAccessedAt
      · rw [if_pos hb]; exact le_of_lt hb
      · rw [if_neg hb]
    · intro x hx
      rcases List.mem_cons.mp hx with rfl | hx
      · refine le_trans h1 ?_
        by_cases hb : x.lastAccessedAt < a.lastAccessedAt
        · rw [if_pos hb]
        · rw [if_neg hb]; exact le_of_not_lt hb
      · exact h2 x hx

/-- The function `findLRU` returns `null` exactly on the empty store. -/
theorem findLRU_eq_none {l : List FileEntry} : findLRU l = none ↔ l = [] := by
  cases l with
  | nil => simp [findLRU]
  | cons a as => simp [findLRU]

/-- The function `findLRU` returns a tracked entry. -/
theorem findLRU_mem {l : List FileEntry} {e : FileEntry} (h : findLRU l = some e) :
    e ∈ l := by
  cases l with
  | nil => cases h
  | cons a as =>
    simp only [findLRU, Option.some.injEq] at h
    rcases findLRU_foldl_mem as a with h2 | h2
    · rw [← h, h2]; exact List.mem_cons_self a as
    · rw [← h]; exact List.mem_cons_of_mem a h2

/-- The function `findLRU` returns an entry with minimal `lastAccessedAt`. -/
theorem findLRU_min {l : List FileEntry} {e : FileEntry} (h : findLRU l = some e) :
    ∀ x ∈ l, e.lastAccessedAt ≤ x.lastAccessedAt := by
  cases l with
  | nil => cases h
  | cons a as =>
    simp only [findLRU, Option.some.injEq] at h
    obtain ⟨h1, h2⟩ := findLRU_foldl_min as a
    intro x hx
    rcases List.mem_cons.mp hx with rfl | hx
    · rw [← h]; exact h1
    · rw [← h]; exact h2 x hx

/-- A strictly least-recently-accessed entry is the one `findLRU` returns. -/
theorem findLRU_of_unique_min {l : List FileEntry} {e : FileEntry} (he : e ∈ l)
    (hmin : ∀ x ∈ l, x ≠ e → e.lastAccessedAt < x.lastAccessedAt) :
    findLRU l = some e := by
  cases hf : findLRU l with
  | none => rw [findLRU_eq_none.mp hf] at he; cases he
  | some m =>
    by_cases hme : m = e
    · rw [hme]
    · have h1 := findLRU_min hf e he
      have h2 := hmin m (findLRU_mem hf) hme
      omega

/-- Removing a tracked entry strictly shrinks the store. -/
theorem length_removeFile_lt {e : FileEntry} {l : List FileEntry} (he : e ∈ l) :
    (removeFile e.id l).length < l.length := by
  induction l with
  | nil => cases he
  | cons a as ih =>
    rcases List.mem_cons.mp he with rfl | hmem
    · simp only [removeFile, List.filter_cons, beq_self_eq_true, Bool.not_true,
        Bool.false_eq_true, if_false]
      exact Nat.lt_succ_of_le (List.length_filter_le _ as)
    · simp only [removeFile, List.filter_cons] at ih ⊢
      by_cases hpa : (!(a.id == e.id)) = true
      · rw [if_pos hpa]
        simpa using Nat.succ_lt_succ (ih hmem)
      · rw [if_neg hpa]
        exact Nat.lt_succ_of_le (le_of_lt (ih hmem))

/-- Filtering never grows the tracked byte total. -/
theorem totalSize_filter_le (p : FileEntry → Bool) (l : List FileEntry) :
    totalSize (l.filter p) ≤ totalSize l := by
  induction l with
  | nil => exact le_refl _
  | cons a as ih =>
    simp only [totalSize, List.filter_cons, List.map_cons, List.sum_cons] at ih ⊢
    by_cases hpa : p a = true
    · rw [if_pos hpa]; simp only [List.map_cons, List.sum_cons]; omega
    · rw [if_neg hpa]; omega

/-- After the disk-quota loop, either the quota inequality holds or the
store has been emptied. -/
theorem evictSizeAux_spec (md inc : Nat) :
    ∀ fuel l, l.length ≤ fuel →
      totalSize (evictSizeAux md inc fuel l) + inc ≤ md ∨
      evictSizeAux md inc fuel l = [] := by
  intro fuel
  induction fuel with
  | zero =>
    intro l hl
    right
    have : l = [] := List.length_eq_zero.mp (Nat.le_zero.mp hl)
    rw [this]; rfl
  | succ n ih =>
    intro l hl
    rw [evictSizeAux]
    cases hf : findLRU l with
    | none => right; exact findLRU_eq_none.mp hf
    | some lru =>
      dsimp only
      by_cases hc : md < totalSize l + inc
      · rw [if_pos hc]
        refine ih (removeFile lru.id l) ?_
        have := length_removeFile_lt (findLRU_mem hf)
        omega
      · rw [if_neg hc]; left; omega

/-- The disk-quota loop never runs when the quota already holds. -/
theorem evictSizeAux_of_le (md inc : Nat) (l : List FileEntry)
    (h : totalSize l + inc ≤ md) : ∀ fuel, evictSizeAux md inc fuel l = l := by
  intro fuel
  cases fuel with
  | zero => rfl
  | succ n =>
    rw [evictSizeAux]
    cases hf : findLRU l with
    | none => rfl
    | some lru =>
      dsimp only
      rw [if_neg (by omega)]

/-- After the file-count loop, either the count is strictly below the cap or
the store has been emptied. -/
theorem evictCountAux_spec (mf : Nat) :
    ∀ fuel l, l.length ≤ fuel →
      (evictCountAux mf fuel l).length < mf ∨ evictCountAux mf fuel l = [] := by
  intro fuel
  induction fuel with
  | zero =>
    intro l hl
    right
    have : l = [] := List.length_eq_zero.mp (Nat.le_zero.mp hl)
    rw [this]; rfl
  | succ n ih =>
    intro l hl
    rw [evictCountAux]
    cases hf : findLRU l with
    | none => right; exact findLRU_eq_none.mp hf
    | some lru =>
      dsimp only
      by_cases hc : mf ≤ l.length
      · rw [if_pos hc]
        refine ih (removeFile lru.id l) ?_
        have := length_removeFile_lt (findLRU_mem hf)
        omega
      · rw [if_neg hc]; left; omega

/-- The file-count loop only removes entries, so it never grows the byte
total. -/
theorem totalSize_evictCountAux_le (mf : Nat) :
    ∀ fuel l, totalSize (evictCountAux mf fuel l) ≤ totalSize l := by
  intro fuel
  induction fuel with
  | zero => intro l; exact le_refl _
  | succ n ih =>
    intro l
    rw [evictCountAux]
    cases hf : findLRU l with
    | none => exact le_refl _
    | some lru =>
      dsimp only
      by_cases hc : mf ≤ l.length
      · rw [if_pos hc]
        exact le_trans (ih (removeFile lru.id l)) (totalSize_filter_le _ l)
      · rw [if_neg hc]

end RemotionMCP
namespace RemotionMCP

/-- One unfolding step of the file-count eviction loop. -/
theorem evictCountAux_succ (mf fuel : Nat) (l : List FileEntry) :
    evictCountAux mf (fuel + 1) l =
      match findLRU l with
      | none => l
      | some lru =>
          if mf ≤ l.length then evictCountAux mf fuel (removeFile lru.id l)
          else l := rfl

/-- Appending one entry adds exactly its size to the byte total. -/
theorem totalSize_append_single (l : List FileEntry) (e : FileEntry) :
    totalSize (l ++ [e]) = totalSize l + e.size := by
  simp [totalSize]

/-- C1, amended (the counterexample `store_quota_maxFiles_zero_cex` forces
the restriction `maxFiles ≥ 1`): after any successful `store()` call on an
initialized local store — hence after each call of every sequence of
successful `store()` calls — the sum of the sizes of all tracked `FileEntry`
records is at most `maxDiskBytes`, and the number of tracked records is at
most `maxFiles`, provided `maxFiles ≥ 1`. -/
theorem store_quota_invariant (cfg : UrlConfig) (tClean tNow : Nat)
    (newId newToken : String) (fd : FileData) (l post : List FileEntry)
    (entry : FileEntry) (hmf : 1 ≤ cfg.maxFiles)
    (h : store cfg tClean tNow newId newToken fd l = .ok post entry) :
    totalSize post ≤ cfg.maxDiskBytes ∧ post.length ≤ cfg.maxFiles := by
  have hbig : ¬ cfg.maxDiskBytes < fd.bufLen := by
    intro hb; simp [store, hb] at h
  simp only [store, if_neg hbig] at h
  injection h with h1 h2
  subst h1
  have hsz : totalSize (evictSize cfg.maxDiskBytes fd.bufLen (cleanupStep tClean l)) +
        fd.bufLen ≤ cfg.maxDiskBytes ∨
      evictSize cfg.maxDiskBytes fd.bufLen (cleanupStep tClean l) = [] :=
    evictSizeAux_spec cfg.maxDiskBytes fd.bufLen _ _ (le_refl _)
  have hcnt : (evictCount cfg.maxFiles
        (evictSize cfg.maxDiskBytes fd.bufLen (cleanupStep tClean l))).length <
        cfg.maxFiles ∨
      evictCount cfg.maxFiles
        (evictSize cfg.maxDiskBytes fd.bufLen (cleanupStep tClean l)) = [] :=
    evictCountAux_spec cfg.maxFiles _ _ (le_refl _)
  have hle : totalSize (evictCount cfg.maxFiles
        (evictSize cfg.maxDiskBytes fd.bufLen (cleanupStep tClean l))) ≤
      totalSize (evictSize cfg.maxDiskBytes fd.bufLen (cleanupStep tClean l)) :=
    totalSize_evictCountAux_le _ _ _
  rw [totalSize_append_single, List.length_append]
  have hmk : (mkEntry cfg tNow newId newToken fd).size = fd.bufLen := rfl
  rw [hmk]
  constructor
  · rcases hsz with hsz | hsz
    · omega
    · rw [hsz] at hle ⊢
      have h0 : evictCount cfg.maxFiles ([] : List FileEntry) = [] := rfl
      rw [h0]
      have : totalSize ([] : List FileEntry) = 0 := rfl
      omega
  · rcases hcnt with hcnt | hcnt
    · simp only [List.length_singleton]
      omega
    · rw [hcnt]
      simp only [List.length_nil, List.length_singleton]
      omega

/-- C1 fails as stated for `maxFiles = 0`: on an initialized empty store with
`maxDiskBytes = 10` and `maxFiles = 0`, storing a 5-byte file succeeds and
leaves one tracked entry, violating `fileCount ≤ maxFiles`. -/
theorem store_quota_maxFiles_zero_cex :
    store ⟨"/srv", 10, 0, 60⟩ 0 0 "a" "t" ⟨"video/mp4", 5⟩ [] =
      .ok [⟨"a", "a.mp4", "/srv/a.mp4", "t", "video/mp4", 5, 0, 60000, 0⟩]
        ⟨"a", "a.mp4", "/srv/a.mp4", "t", "video/mp4", 5, 0, 60000, 0⟩ ∧
    ¬ ([(⟨"a", "a.mp4", "/srv/a.mp4", "t", "video/mp4", 5, 0, 60000, 0⟩ : FileEntry)].length ≤
        (⟨"/srv", 10, 0, 60⟩ : UrlConfig).maxFiles) := by
  decide

/-- Witness for `store_quota_invariant` at a concrete input. -/
theorem store_quota_invariant_witness :
    totalSize [⟨"b", "b.mp4", "/s/b.mp4", "t", "video/mp4", 4, 0, 60000, 0⟩] ≤ 10 ∧
    ([(⟨"b", "b.mp4", "/s/b.mp4", "t", "video/mp4", 4, 0, 60000, 0⟩ : FileEntry)]).length ≤ 2 :=
  store_quota_invariant ⟨"/s", 10, 2, 60⟩ 0 0 "b" "t" ⟨"video/mp4", 4⟩ []
    [⟨"b", "b.mp4", "/s/b.mp4", "t", "video/mp4", 4, 0, 60000, 0⟩]
    ⟨"b", "b.mp4", "/s/b.mp4", "t", "video/mp4", 4, 0, 60000, 0⟩
    (by decide) (by decide)

/-- C3: when the incoming buffer alone exceeds `maxDiskBytes`, `store()`
fails, no entry is inserted and nothing is evicted; the only state change is
the step-1 expiry sweep (every unexpired entry survives, and every surviving
entry was already tracked). -/
theorem store_rejects_oversize (cfg : UrlConfig) (tClean tNow : Nat)
    (newId newToken : String) (fd : FileData) (l : List FileEntry)
    (h : cfg.maxDiskBytes < fd.bufLen) :
    store cfg tClean tNow newId newToken fd l = .tooLarge (cleanupStep tClean l) ∧
    (∀ e ∈ l, tClean ≤ e.expiresAt → e ∈ cleanupStep tClean l) ∧
    (∀ e ∈ cleanupStep tClean l, e ∈ l) := by
  refine ⟨by simp [store, h], ?_, ?_⟩
  · intro e he hexp
    exact List.mem_filter.mpr ⟨he, by simpa using hexp⟩
  · intro e he
    exact (List.mem_filter.mp he).1

/-- Witness for `store_rejects_oversize` at a concrete input. -/
theorem store_rejects_oversize_witness :
    store ⟨"/s", 10, 5, 60⟩ 0 0 "x" "t" ⟨"video/mp4", 11⟩ [] =
      .tooLarge (cleanupStep 0 []) :=
  (store_rejects_oversize ⟨"/s", 10, 5, 60⟩ 0 0 "x" "t" ⟨"video/mp4", 11⟩ []
    (by decide)).1

/-- C9: if the store holds exactly three unexpired entries A, B, C with
`lastAccessedAt` 1, 5, 3, the file-count cap is 3, the disk quota is not
binding and the entry ids are distinct, then storing a new file evicts
exactly A and the tracked entries afterwards are exactly B, C and the newly
inserted entry. -/
theorem store_evicts_lru (cfg : UrlConfig) (now tNow : Nat)
    (newId newToken : String) (fd : FileData) (eA eB eC : FileEntry)
    (l : List FileEntry) (hperm : l.Perm [eA, eB, eC])
    (hmf : cfg.maxFiles = 3)
    (hA : eA.lastAccessedAt = 1) (hB : eB.lastAccessedAt = 5)
    (hC : eC.lastAccessedAt = 3)
    (hBA : eB.id ≠ eA.id) (hCA : eC.id ≠ eA.id)
    (hexp : ∀ e ∈ l, now ≤ e.expiresAt)
    (hdisk : totalSize l + fd.bufLen ≤ cfg.maxDiskBytes) :
    store cfg now tNow newId newToken fd l =
      .ok (removeFile eA.id l ++ [mkEntry cfg tNow newId newToken fd])
        (mkEntry cfg tNow newId newToken fd) ∧
    (removeFile eA.id l ++ [mkEntry cfg tNow newId newToken fd]).Perm
      [eB, eC, mkEntry cfg tNow newId newToken fd] := by
  have hclean : cleanupStep now l = l :=
    List.filter_eq_self.mpr (fun e he => by simpa using hexp e he)
  have hlen : l.length = 3 := hperm.length_eq
  have hbig : ¬ cfg.maxDiskBytes < fd.bufLen := by omega
  have hsize : evictSize cfg.maxDiskBytes fd.bufLen l = l := by
    rw [evictSize]; exact evictSizeAux_of_le _ _ _ hdisk _
  have hAmem : eA ∈ l := hperm.mem_iff.mpr (by simp)
  have hfl : findLRU l = some eA := by
    refine findLRU_of_unique_min hAmem ?_
    intro x hx hne
    have hx3 : x ∈ [eA, eB, eC] := hperm.mem_iff.mp hx
    simp only [List.mem_cons, List.not_mem_nil, or_false] at hx3
    rcases hx3 with rfl | rfl | rfl
    · exact absurd rfl hne
    · omega
    · omega
  have hrm : (removeFile eA.id l).Perm [eB, eC] := by
    have hpf := hperm.filter (fun e => !(e.id == eA.id))
    have heq : ([eA, eB, eC].filter (fun e => !(e.id == eA.id))) = [eB, eC] := by
      simp only [List.filter_cons, List.filter_nil, beq_self_eq_true, Bool.not_true,
        Bool.false_eq_true, if_false]
      rw [if_pos (by simpa using hBA), if_pos (by simpa using hCA)]
    rw [heq] at hpf
    exact hpf
  have hcount : evictCount cfg.maxFiles l = removeFile eA.id l := by
    rw [evictCount, hlen, hmf]
    show evictCountAux 3 (2 + 1) l = removeFile eA.id l
    rw [evictCountAux_succ, hfl]
    dsimp only
    rw [if_pos (by omega)]
    show evictCountAux 3 (1 + 1) (removeFile eA.id l) = removeFile eA.id l
    rw [evictCountAux_succ]
    cases hf2 : findLRU (removeFile eA.id l) with
    | none => rfl
    | some lru =>
      dsimp only
      rw [if_neg (by have h2 := hrm.length_eq; simp at h2; omega)]
  refine ⟨?_, hrm.append_right _⟩
  simp only [store, if_neg hbig, hclean, hsize, hcount]

/-- Witness for `store_evicts_lru` at a concrete input. -/
theorem store_evicts_lru_witness :
    store ⟨"/s", 100, 3, 60⟩ 0 7 "N" "tN" ⟨"video/mp4", 4⟩
        [⟨"A", "A.mp4", "/s/A.mp4", "tA", "video/mp4", 1, 0, 100, 1⟩,
         ⟨"B", "B.mp4", "/s/B.mp4", "tB", "video/mp4", 1, 0, 100, 5⟩,
         ⟨"C", "C.mp4", "/s/C.mp4", "tC", "video/mp4", 1, 0, 100, 3⟩] =
      .ok (removeFile "A"
            [⟨"A", "A.mp4", "/s/A.mp4", "tA", "video/mp4", 1, 0, 100, 1⟩,
             ⟨"B", "B.mp4", "/s/B.mp4", "tB", "video/mp4", 1, 0, 100, 5⟩,
             ⟨"C", "C.mp4", "/s/C.mp4", "tC", "video/mp4", 1, 0, 100, 3⟩] ++
           [mkEntry ⟨"/s", 100, 3, 60⟩ 7 "N" "tN" ⟨"video/mp4", 4⟩])
        (mkEntry ⟨"/s", 100, 3, 60⟩ 7 "N" "tN" ⟨"video/mp4", 4⟩) ∧
    (removeFile "A"
        [⟨"A", "A.mp4", "/s/A.mp4", "tA", "video/mp4", 1, 0, 100, 1⟩,
         ⟨"B", "B.mp4", "/s/B.mp4", "tB", "video/mp4", 1, 0, 100, 5⟩,
         ⟨"C", "C.mp4", "/s/C.mp4", "tC", "video/mp4", 1, 0, 100, 3⟩] ++
       [mkEntry ⟨"/s", 100, 3, 60⟩ 7 "N" "tN" ⟨"video/mp4", 4⟩]).Perm
      [⟨"B", "B.mp4", "/s/B.mp4", "tB", "video/mp4", 1, 0, 100, 5⟩,
       ⟨"C", "C.mp4", "/s/C.mp4", "tC", "video/mp4", 1, 0, 100, 3⟩,
       mkEntry ⟨"/s", 100, 3, 60⟩ 7 "N" "tN" ⟨"video/mp4", 4⟩] :=
  store_evicts_lru ⟨"/s", 100, 3, 60⟩ 0 7 "N" "tN" ⟨"video/mp4", 4⟩
    ⟨"A", "A.mp4", "/s/A.mp4", "tA", "video/mp4", 1, 0, 100, 1⟩
    ⟨"B", "B.mp4", "/s/B.mp4", "tB", "video/mp4", 1, 0, 100, 5⟩
    ⟨"C", "C.mp4", "/s/C.mp4", "tC", "video/mp4", 1, 0, 100, 3⟩ _
    (List.Perm.refl _) rfl rfl rfl rfl (by decide) (by decide) (by decide)
    (by decide)

end RemotionMCP
namespace RemotionMCP

/-- C2: the retrieval route applies its checks in exactly this precedence:
`404` when no tracked entry has the requested filename; otherwise, for the
entry found by filename, `403` whenever the token mismatches (regardless of
expiry — in particular a wrong token on an expired file yields `403`, not
`410`); `410` when the token matches but `now > expiresAt`; otherwise the
entry's `lastAccessedAt` is set to `now` and the file is served with its
recorded MIME type. -/
theorem handleGet_precedence (now : Nat) (fn tok : String) (l : List FileEntry) :
    ((∀ f ∈ l, f.filename ≠ fn) → handleGet now fn tok l = (.notFound, l)) ∧
    (∀ e, l.find? (fun f => f.filename == fn) = some e →
      (e.token ≠ tok → handleGet now fn tok l = (.forbidden, l)) ∧
      (e.token = tok → e.expiresAt < now → handleGet now fn tok l = (.gone, l)) ∧
      (e.token = tok → now ≤ e.expiresAt →
        handleGet now fn tok l =
          (.success e.mimeType,
           l.map (fun f =>
             if f.id == e.id then { f with lastAccessedAt := now } else f)))) := by
  constructor
  · intro hall
    have hnone : l.find? (fun f => f.filename == fn) = none :=
      List.find?_eq_none.mpr (fun x hx => by simpa using hall x hx)
    simp [handleGet, hnone]
  · intro e hfind
    refine ⟨?_, ?_, ?_⟩
    · intro hne
      have hb : (!(e.token == tok)) = true := by simpa using hne
      simp [handleGet, hfind, hb]
    · intro heq hgt
      have hb : (e.token == tok) = true := by simpa using heq
      simp [handleGet, hfind, hb, hgt]
    · intro heq hle
      have hb : (e.token == tok) = true := by simpa using heq
      have hx : ¬ (e.expiresAt < now) := by omega
      simp [handleGet, hfind, hb, hx]

/-- Witness for `handleGet_precedence`: a wrong token on an already expired
entry yields `403`, not `410`. -/
theorem handleGet_precedence_witness :
    handleGet 500 "a.mp4" "bad"
        [⟨"a", "a.mp4", "/s/a.mp4", "tok", "video/mp4", 5, 0, 100, 0⟩] =
      (.forbidden, [⟨"a", "a.mp4", "/s/a.mp4", "tok", "video/mp4", 5, 0, 100, 0⟩]) :=
  ((handleGet_precedence 500 "a.mp4" "bad"
      [⟨"a", "a.mp4", "/s/a.mp4", "tok", "video/mp4", 5, 0, 100, 0⟩]).2
    ⟨"a", "a.mp4", "/s/a.mp4", "tok", "video/mp4", 5, 0, 100, 0⟩
    (by decide)).1 (by decide)

/-- C10: every failed retrieval (`404`, `403` or `410`) leaves the tracked
entry table exactly as it was — in particular an entry past its `expiresAt`
stays tracked, and no `lastAccessedAt` is touched. -/
theorem handleGet_failure_frame (now : Nat) (fn tok : String) (l : List FileEntry)
    (h : (handleGet now fn tok l).1 = .notFound ∨
         (handleGet now fn tok l).1 = .forbidden ∨
         (handleGet now fn tok l).1 = .gone) :
    (handleGet now fn tok l).2 = l := by
  rcases hf : l.find? (fun f => f.filename == fn) with _ | e
  · simp [handleGet, hf]
  · by_cases ht : (!(e.token == tok)) = true
    · simp [handleGet, hf, ht]
    · by_cases hx : e.expiresAt < now
      · simp [handleGet, hf, ht, hx]
      · exfalso
        simp [handleGet, hf, ht, hx] at h

/-- Witness for `handleGet_failure_frame`: an expired entry is not removed
by a `410` retrieval. -/
theorem handleGet_failure_frame_witness :
    (handleGet 500 "a.mp4" "tok"
        [⟨"a", "a.mp4", "/s/a.mp4", "tok", "video/mp4", 5, 0, 100, 0⟩]).2 =
      [⟨"a", "a.mp4", "/s/a.mp4", "tok", "video/mp4", 5, 0, 100, 0⟩] :=
  handleGet_failure_frame 500 "a.mp4" "tok"
    [⟨"a", "a.mp4", "/s/a.mp4", "tok", "video/mp4", 5, 0, 100, 0⟩]
    (by decide)

/-- C4 fails as stated at the boundary `now = expiresAt`: the code serves the
file when `Date.now()` equals `expiresAt` (the `410` guard is the strict
`now > expiresAt`), so "not served for every retrieval at `now ≥ expiresAt`"
is false. A file stored at time 0 with `ttlSeconds = 5` has
`expiresAt = 5000` and is still served at `now = 5000`. -/
theorem serve_at_expiry_boundary_cex :
    store ⟨"/srv", 100, 10, 5⟩ 0 0 "a" "t" ⟨"video/mp4", 7⟩ [] =
      .ok [⟨"a", "a.mp4", "/srv/a.mp4", "t", "video/mp4", 7, 0, 5000, 0⟩]
        ⟨"a", "a.mp4", "/srv/a.mp4", "t", "video/mp4", 7, 0, 5000, 0⟩ ∧
    5000 ≥ (⟨"a", "a.mp4", "/srv/a.mp4", "t", "video/mp4", 7, 0, 5000, 0⟩ : FileEntry).expiresAt ∧
    (handleGet 5000 "a.mp4" "t"
        [⟨"a", "a.mp4", "/srv/a.mp4", "t", "video/mp4", 7, 0, 5000, 0⟩]).1 =
      .success "video/mp4" := by
  decide

/-- The expiry sweep only removes entries. -/
theorem mem_cleanupStep {x : FileEntry} {now : Nat} {l : List FileEntry}
    (h : x ∈ cleanupStep now l) : x ∈ l :=
  (List.mem_filter.mp h).1

/-- The disk-quota loop only removes entries. -/
theorem mem_evictSizeAux (md inc : Nat) :
    ∀ fuel l x, x ∈ evictSizeAux md inc fuel l → x ∈ l := by
  intro fuel
  induction fuel with
  | zero => intro l x hx; exact hx
  | succ n ih =>
    intro l x hx
    rw [evictSizeAux] at hx
    cases hf : findLRU l with
    | none => rw [hf] at hx; exact hx
    | some lru =>
      rw [hf] at hx
      dsimp only at hx
      by_cases hc : md < totalSize l + inc
      · rw [if_pos hc] at hx
        exact (List.mem_filter.mp (ih _ x hx)).1
      · rw [if_neg hc] at hx
        exact hx

/-- The file-count loop only removes entries. -/
theorem mem_evictCountAux (mf : Nat) :
    ∀ fuel l x, x ∈ evictCountAux mf fuel l → x ∈ l := by
  intro fuel
  induction fuel with
  | zero => intro l x hx; exact hx
  | succ n ih =>
    intro l x hx
    rw [evictCountAux] at hx
    cases hf : findLRU l with
    | none => rw [hf] at hx; exact hx
    | some lru =>
      rw [hf] at hx
      dsimp only at hx
      by_cases hc : mf ≤ l.length
      · rw [if_pos hc] at hx
        exact (List.mem_filter.mp (ih _ x hx)).1
      · rw [if_neg hc] at hx
        exact hx

/-- Looking up a freshly appended entry by its filename finds it whenever no
surviving entry shares that filename. -/
theorem find?_append_fresh (f2 : List FileEntry) (e : FileEntry)
    (hf : ∀ x ∈ f2, x.filename ≠ e.filename) :
    (f2 ++ [e]).find? (fun f => f.filename == e.filename) = some e := by
  induction f2 with
  | nil => simp [List.find?]
  | cons a as ih =>
    have ha : (a.filename == e.filename) = false := by
      simpa using hf a (List.mem_cons_self ..)
    simp only [List.cons_append, List.find?, ha]
    exact ih (fun x hx => hf x (List.mem_cons_of_mem a hx))

/-- C4, amended (the counterexample `serve_at_expiry_boundary_cex` weakens
"unreachable from `now ≥ expiresAt`" to the code's strict "unreachable once
`now > expiresAt`"): every successful `store()`, from any pre-state none of
whose tracked entries already uses the fresh filename (which the source
guarantees by deriving the filename from a fresh UUID), creates an entry
with `expiresAt = createdAt + ttlSeconds × 1000` (so `expiresAt > createdAt`
whenever `ttlSeconds > 0`); retrieving it strictly after `expiresAt` yields
`410`; retrieving it at the creation instant succeeds; and with
`ttlSeconds = 1` any retrieval more than 1000 ms after creation yields
`410`. -/
theorem store_ttl_expiry (cfg : UrlConfig) (tClean tNow : Nat)
    (newId newToken : String) (fd : FileData) (l post : List FileEntry)
    (e : FileEntry)
    (hfresh : ∀ x ∈ l, x.filename ≠ newId ++ getExtension fd.mimeType)
    (h : store cfg tClean tNow newId newToken fd l = .ok post e) :
    e.expiresAt = e.createdAt + cfg.ttlSeconds * 1000 ∧
    (0 < cfg.ttlSeconds → e.createdAt < e.expiresAt) ∧
    (∀ now, e.expiresAt < now →
      (handleGet now e.filename e.token post).1 = .gone) ∧
    (handleGet tNow e.filename e.token post).1 = .success e.mimeType ∧
    (cfg.ttlSeconds = 1 → ∀ d, 1000 < d →
      (handleGet (tNow + d) e.filename e.token post).1 = .gone) := by
  have hbig : ¬ cfg.maxDiskBytes < fd.bufLen := by
    intro hb; simp [store, hb] at h
  simp only [store, if_neg hbig] at h
  injection h with h1 h2
  subst h2
  subst h1
  have hsub : ∀ x ∈ evictCount cfg.maxFiles
      (evictSize cfg.maxDiskBytes fd.bufLen (cleanupStep tClean l)), x ∈ l := by
    intro x hx
    exact mem_cleanupStep (mem_evictSizeAux _ _ _ _ _ (mem_evictCountAux _ _ _ _ hx))
  have hfind :
      (evictCount cfg.maxFiles
          (evictSize cfg.maxDiskBytes fd.bufLen (cleanupStep tClean l)) ++
        [mkEntry cfg tNow newId newToken fd]).find?
        (fun f => f.filename == (mkEntry cfg tNow newId newToken fd).filename) =
      some (mkEntry cfg tNow newId newToken fd) :=
    find?_append_fresh _ _ (fun x hx => hfresh x (hsub x hx))
  refine ⟨rfl, by intro ht; simp only [mkEntry]; omega, ?_, ?_, ?_⟩
  · intro now hlt
    simp only [handleGet, hfind, beq_self_eq_true, Bool.not_true,
      Bool.false_eq_true, if_false]
    rw [if_pos hlt]
  · simp only [handleGet, hfind, beq_self_eq_true, Bool.not_true,
      Bool.false_eq_true, if_false]
    rw [if_neg (by simp [mkEntry])]
  · intro httl d hd
    simp only [handleGet, hfind, beq_self_eq_true, Bool.not_true,
      Bool.false_eq_true, if_false]
    rw [if_pos (by simp [mkEntry, httl]; omega)]

/-- Witness for `store_ttl_expiry` at a concrete input: a `ttlSeconds = 1`
store onto a store already tracking one unexpired entry with a different
filename. -/
theorem store_ttl_expiry_witness :
    (⟨"a", "a.mp4", "/s/a.mp4", "t", "video/mp4", 3, 10, 1010, 10⟩ : FileEntry).expiresAt =
      (⟨"a", "a.mp4", "/s/a.mp4", "t", "video/mp4", 3, 10, 1010, 10⟩ : FileEntry).createdAt +
        (⟨"/s", 100, 10, 1⟩ : UrlConfig).ttlSeconds * 1000 ∧
    (0 < (⟨"/s", 100, 10, 1⟩ : UrlConfig).ttlSeconds →
      (⟨"a", "a.mp4", "/s/a.mp4", "t", "video/mp4", 3, 10, 1010, 10⟩ : FileEntry).createdAt <
        (⟨"a", "a.mp4", "/s/a.mp4", "t", "video/mp4", 3, 10, 1010, 10⟩ : FileEntry).expiresAt) ∧
    (∀ now, (⟨"a", "a.mp4", "/s/a.mp4", "t", "video/mp4", 3, 10, 1010, 10⟩ : FileEntry).expiresAt < now →
      (handleGet now "a.mp4" "t"
          [⟨"z", "z.mp4", "/s/z.mp4", "tz", "video/mp4", 2, 0, 60000, 0⟩,
           ⟨"a", "a.mp4", "/s/a.mp4", "t", "video/mp4", 3, 10, 1010, 10⟩]).1 = .gone) ∧
    (handleGet 10 "a.mp4" "t"
        [⟨"z", "z.mp4", "/s/z.mp4", "tz", "video/mp4", 2, 0, 60000, 0⟩,
         ⟨"a", "a.mp4", "/s/a.mp4", "t", "video/mp4", 3, 10, 1010, 10⟩]).1 =
      .success "video/mp4" ∧
    ((⟨"/s", 100, 10, 1⟩ : UrlConfig).ttlSeconds = 1 → ∀ d, 1000 < d →
      (handleGet (10 + d) "a.mp4" "t"
          [⟨"z", "z.mp4", "/s/z.mp4", "tz", "video/mp4", 2, 0, 60000, 0⟩,
           ⟨"a", "a.mp4", "/s/a.mp4", "t", "video/mp4", 3, 10, 1010, 10⟩]).1 = .gone) :=
  store_ttl_expiry ⟨"/s", 100, 10, 1⟩ 0 10 "a" "t" ⟨"video/mp4", 3⟩
    [⟨"z", "z.mp4", "/s/z.mp4", "tz", "video/mp4", 2, 0, 60000, 0⟩]
    [⟨"z", "z.mp4", "/s/z.mp4", "tz", "video/mp4", 2, 0, 60000, 0⟩,
     ⟨"a", "a.mp4", "/s/a.mp4", "t", "video/mp4", 3, 10, 1010, 10⟩]
    ⟨"a", "a.mp4", "/s/a.mp4", "t", "video/mp4", 3, 10, 1010, 10⟩
    (by decide) (by decide)

end RemotionMCP
namespace RemotionMCP

/-- JavaScript `ToInt32`: wrap an integer into `[-2^31, 2^31)` (the effect of
`<<` and `&` on a JS number). -/
def toInt32 (n : Int) : Int := (n + 2 ^ 31) % 2 ^ 32 - 2 ^ 31

/-- One loop iteration of `DynamicBundler.hashCode`:
`hash = ((hash << 5) - hash) + char; hash = hash & hash`. Characters are
modelled by their code point, which agrees with `charCodeAt` on all
Basic-Multilingual-Plane strings (the template sources are ASCII). -/
def hashStep (h : Int) (c : Char) : Int :=
  toInt32 (toInt32 (h * 2 ^ 5) - h + c.toNat)

/-- The signed 32-bit rolling hash accumulated by `DynamicBundler.hashCode`. -/
def hashInt (s : String) : Int := s.data.foldl hashStep 0

/-- Embeds `DynamicBundler.hashCode`: `Math.abs(hash).toString(16)`. -/
def hashCode (s : String) : String :=
  ⟨Nat.toDigits 16 (hashInt s).natAbs⟩

/-- The cache key computed at the top of `DynamicBundler.bundle`:
`` `${templateName}-${this.hashCode(templateCode)}` ``. -/
def cacheKey (templateName templateCode : String) : String :=
  templateName ++ "-" ++ hashCode templateCode

/-- State of a `DynamicBundler`: the `bundleCache` map (association list,
unique keys) and the set of filesystem paths that currently exist (used by
the `fs.access` staleness probe). -/
structure BundlerState where
  cache : List (String × String)
  disk : List String
deriving DecidableEq, Repr

/-- Embeds `Map.get` on the bundle cache. -/
def cacheGet (k : String) (m : List (String × String)) : Option String :=
  (m.find? (fun p => p.1 == k)).map (fun p => p.2)

/-- Embeds `Map.set` on the bundle cache. -/
def cacheSet (k v : String) (m : List (String × String)) : List (String × String) :=
  m.filter (fun p => !(p.1 == k)) ++ [(k, v)]

/-- Embeds `Map.delete` on the bundle cache. -/
def cacheDel (k : String) (m : List (String × String)) : List (String × String) :=
  m.filter (fun p => !(p.1 == k))

/-- What the `cleanup` closure returned by `bundle()` does when invoked:
nothing (cache hit), or remove the scaffolded project directory (cache
miss). -/
inductive Release
  | noop
  | rmProject (dir : String)
deriving DecidableEq, Repr

/-- Outcome of one `bundle()` call. -/
inductive BundleOutcome
  | ok (bundlePath : String) (release : Release)
  | unavailable
  | compileFailed
deriving DecidableEq, Repr

/-- The cache-miss path of `DynamicBundler.bundle`: throw if the backend is
absent, otherwise scaffold a fresh project directory and compile
(`compileFn projectDir`, `none` modelling a backend throw). On success the
bundle path is cached and both new directories exist; on failure both are
removed again. The `Nat` component counts backend compile invocations. -/
def bundleMiss (avail : Bool) (projectDir : String)
    (compileFn : String → Option String) (key : String) (st : BundlerState) :
    BundleOutcome × BundlerState × Nat :=
  if avail then
    match compileFn projectDir with
    | some bp =>
        (.ok bp (.rmProject projectDir),
         ⟨cacheSet key bp st.cache, bp :: projectDir :: st.disk⟩, 1)
    | none => (.compileFailed, st, 1)
  else (.unavailable, st, 0)

/-- Embeds `DynamicBundler.bundle templateCode templateName`: return the cached
bundle with a no-op cleanup when the cache entry exists and its path is
still on disk; drop a stale entry and fall through to the miss path
otherwise. -/
def bundleStep (avail : Bool) (projectDir : String)
    (compileFn : String → Option String) (templateCode templateName : String)
    (st : BundlerState) : BundleOutcome × BundlerState × Nat :=
  let key := cacheKey templateName templateCode
  match cacheGet key st.cache with
  | some p =>
      if p ∈ st.disk then (.ok p .noop, st, 0)
      else bundleMiss avail projectDir compileFn key ⟨cacheDel key st.cache, st.disk⟩
  | none => bundleMiss avail projectDir compileFn key st

/-- Invoking the `cleanup` closure returned by `bundle()`: a no-op, or the
removal of the project scaffold directory (never the bundle output, never a
cache entry). -/
def applyRelease : Release → BundlerState → BundlerState
  | .noop, st => st
  | .rmProject d, st => ⟨st.cache, st.disk.filter (fun x => !(x == d))⟩

/-- Reading the bundle cache right after writing the same key. -/
theorem cacheGet_set (k v : String) (m : List (String × String)) :
    cacheGet k (cacheSet k v m) = some v := by
  induction m with
  | nil => simp [cacheGet, cacheSet, List.find?]
  | cons a as ih =>
    simp only [cacheSet, List.filter_cons] at ih ⊢
    by_cases h : (!(a.1 == k)) = true
    · rw [if_pos h]
      have hak : (a.1 == k) = false := by revert h; cases a.1 == k <;> simp
      simp only [cacheGet, List.cons_append, List.find?, hak] at ih ⊢
      exact ih
    · rw [if_neg h]
      exact ih

end RemotionMCP
namespace RemotionMCP

/-- A successful run of the miss path of `bundle()` compiled once, returns a
project-scaffold cleanup, caches the new bundle path and leaves both new
directories on disk. -/
theorem bundleMiss_ok (d k p1 : String) (r1 : Release) (n1 : Nat)
    (f : String → Option String) (st st1 : BundlerState)
    (h : bundleMiss true d f k st = (.ok p1 r1, st1, n1)) :
    f d = some p1 ∧ r1 = .rmProject d ∧ n1 = 1 ∧
    st1 = ⟨cacheSet k p1 st.cache, p1 :: d :: st.disk⟩ := by
  simp only [bundleMiss, if_true] at h
  cases hf : f d with
  | none =>
    rw [hf] at h
    simp only [Prod.mk.injEq] at h
    exact absurd h.1 (by simp)
  | some bp =>
    rw [hf] at h
    simp only [Prod.mk.injEq] at h
    obtain ⟨ho, hst, hn⟩ := h
    injection ho with h1 h2
    subst h1
    subst h2
    exact ⟨rfl, rfl, hn.symm, hst.symm⟩

/-- C5: with the backend available, once a first `bundle()` call on
`(code, name)` has succeeded, a second call with identical arguments returns
the same `bundlePath` with a no-op `releaseFn` and does not compile again
(the two calls invoke the backend compile at most once in total), and
invoking the first call's `releaseFn` removes no cache entry and never
deletes the bundle output (the scaffold directory `d1` being distinct from
the returned bundle path). -/
theorem bundle_idempotent (code name d1 d2 p1 : String) (r1 : Release) (n1 : Nat)
    (f1 f2 : String → Option String) (st0 st1 : BundlerState)
    (hd1 : d1 ≠ p1)
    (h1 : bundleStep true d1 f1 code name st0 = (.ok p1 r1, st1, n1)) :
    bundleStep true d2 f2 code name st1 = (.ok p1 .noop, st1, 0) ∧
    n1 + 0 ≤ 1 ∧
    (applyRelease r1 st1).cache = st1.cache ∧
    p1 ∈ (applyRelease r1 st1).disk := by
  simp only [bundleStep] at h1
  cases hg : cacheGet (cacheKey name code) st0.cache with
  | some p =>
    rw [hg] at h1
    dsimp only at h1
    by_cases hp : p ∈ st0.disk
    · rw [if_pos hp] at h1
      simp only [Prod.mk.injEq] at h1
      obtain ⟨ho, hst, hn⟩ := h1
      injection ho with hpeq hreq
      subst hpeq
      subst hreq
      subst hst
      subst hn
      refine ⟨?_, by omega, rfl, hp⟩
      simp only [bundleStep]
      rw [hg]
      dsimp only
      rw [if_pos hp]
    · rw [if_neg hp] at h1
      obtain ⟨hf, hr, hn, hst⟩ :=
        bundleMiss_ok d1 (cacheKey name code) p1 r1 n1 f1 _ st1 h1
      subst hr
      subst hn
      subst hst
      refine ⟨?_, by omega, rfl, ?_⟩
      · simp only [bundleStep]
        rw [show cacheGet (cacheKey name code)
              (⟨cacheSet (cacheKey name code) p1 (cacheDel (cacheKey name code) st0.cache),
                p1 :: d1 :: st0.disk⟩ : BundlerState).cache = some p1 from
            cacheGet_set ..]
        dsimp only
        rw [if_pos (List.mem_cons_self ..)]
      · dsimp only [applyRelease]
        refine List.mem_filter.mpr ⟨List.mem_cons_self .., ?_⟩
        simp only [Bool.not_eq_true']
        exact beq_eq_false_iff_ne.mpr (fun hc => hd1 hc.symm)
  | none =>
    rw [hg] at h1
    dsimp only at h1
    obtain ⟨hf, hr, hn, hst⟩ :=
      bundleMiss_ok d1 (cacheKey name code) p1 r1 n1 f1 st0 st1 h1
    subst hr
    subst hn
    subst hst
    refine ⟨?_, by omega, rfl, ?_⟩
    · simp only [bundleStep]
      rw [show cacheGet (cacheKey name code)
            (⟨cacheSet (cacheKey name code) p1 st0.cache,
              p1 :: d1 :: st0.disk⟩ : BundlerState).cache = some p1 from
          cacheGet_set ..]
      dsimp only
      rw [if_pos (List.mem_cons_self ..)]
    · dsimp only [applyRelease]
      refine List.mem_filter.mpr ⟨List.mem_cons_self .., ?_⟩
      simp only [Bool.not_eq_true']
      exact beq_eq_false_iff_ne.mpr (fun hc => hd1 hc.symm)

/-- Witness for `bundle_idempotent`: a first call on an empty cache, then a
second identical call. -/
theorem bundle_idempotent_witness :
    bundleStep true "P2" (fun _ => some "B") "X" "u"
        ⟨[(cacheKey "u" "X", "B")], ["B", "P1"]⟩ =
      (.ok "B" .noop, ⟨[(cacheKey "u" "X", "B")], ["B", "P1"]⟩, 0) ∧
    1 + 0 ≤ 1 ∧
    (applyRelease (.rmProject "P1") ⟨[(cacheKey "u" "X", "B")], ["B", "P1"]⟩).cache =
      (⟨[(cacheKey "u" "X", "B")], ["B", "P1"]⟩ : BundlerState).cache ∧
    "B" ∈ (applyRelease (.rmProject "P1") ⟨[(cacheKey "u" "X", "B")], ["B", "P1"]⟩).disk :=
  bundle_idempotent "X" "u" "P1" "P2" "B" (.rmProject "P1") 1
    (fun _ => some "B") (fun _ => some "B") ⟨[], []⟩
    ⟨[(cacheKey "u" "X", "B")], ["B", "P1"]⟩ (by decide) (by decide)

/-- C8 fails as stated: the key is `templateName + "-" + hash(sourceText)`,
not a hash of the concatenation, so the calls `(name, source) = ("ab", "c")`
and `("a", "bc")`, whose concatenations agree, get different cache keys
(`"ab-63"` vs `"a-c41"`). -/
theorem cacheKey_concat_cex :
    "ab" ++ "c" = "a" ++ "bc" ∧ cacheKey "ab" "c" ≠ cacheKey "a" "bc" :=
  ⟨rfl, by decide⟩

/-- C8, amended (the counterexample `cacheKey_concat_cex` replaces
"hash of the concatenation" by the code's actual shape): the cache key is
`templateName ++ "-" ++ hashCode sourceText`, where `hashCode` is the fixed
32-bit rolling string hash of the source text alone, rendered as lowercase
hex of its absolute value; two calls with identical name and source always
produce the same key, but calls with equal concatenations and different
splits may not. -/
theorem cacheKey_amended :
    (∀ n s, cacheKey n s = n ++ "-" ++ hashCode s) ∧
    (∀ n1 s1 n2 s2, n1 = n2 → s1 = s2 → cacheKey n1 s1 = cacheKey n2 s2) ∧
    cacheKey "ab" "c" = "ab" ++ "-" ++ "63" ∧
    cacheKey "a" "bc" = "a" ++ "-" ++ "c41" := by
  refine ⟨fun n s => rfl, ?_, by decide, by decide⟩
  intro n1 s1 n2 s2 h1 h2
  rw [h1, h2]

/-- Witness for `cacheKey_amended` at a concrete input. -/
theorem cacheKey_amended_witness :
    cacheKey "u" "X" = "u" ++ "-" ++ hashCode "X" ∧
    cacheKey "u" "X" = cacheKey "u" "X" :=
  ⟨cacheKey_amended.1 "u" "X", cacheKey_amended.2.1 "u" "X" "u" "X" rfl rfl⟩

end RemotionMCP
namespace RemotionMCP

/-- JSON values: the shape of the `Record<string, unknown>` payloads that
reach `JSON.stringify` in the engine's mock mode. Object fields are kept in
insertion order, as `JSON.stringify` serializes them. -/
inductive Json
  | str (s : String)
  | num (q : ℚ)
  | bool (b : Bool)
  | null
  | arr (elems : List Json)
  | obj (fields : List (String × Json))

/-- Embeds `JSON.stringify` escaping for one character (quote and backslash; the
claims evaluate no control characters). -/
def jsonEscapeChar (c : Char) : String :=
  if c = '"' then "\\\"" else if c = '\\' then "\\\\" else String.singleton c

/-- A JSON string literal. -/
def jsonQuote (s : String) : String :=
  "\"" ++ String.join (s.data.map jsonEscapeChar) ++ "\""

/-- A JSON number. JavaScript prints integral doubles without a fractional
part, which is the `q.den = 1` branch; the claims evaluate only
integer-valued numbers. -/
def jsonNum (q : ℚ) : String :=
  if q.den = 1 then toString q.num else toString q.num ++ "/" ++ toString q.den

mutual

/-- Embeds `JSON.stringify` of a value. -/
def jsonStr : Json → String
  | .str s => jsonQuote s
  | .num q => jsonNum q
  | .bool b => if b then "true" else "false"
  | .null => "null"
  | .arr l => "[" ++ jsonArr l ++ "]"
  | .obj l => "\x7b" ++ jsonObj l ++ "\x7d"

/-- Comma-joined serialization of array elements. -/
def jsonArr : List Json → String
  | [] => ""
  | [x] => jsonStr x
  | x :: y :: xs => jsonStr x ++ "," ++ jsonArr (y :: xs)

/-- Comma-joined serialization of object fields. -/
def jsonObj : List (String × Json) → String
  | [] => ""
  | [(k, v)] => jsonQuote k ++ ":" ++ jsonStr v
  | (k, v) :: y :: xs => jsonQuote k ++ ":" ++ jsonStr v ++ "," ++ jsonObj (y :: xs)

end

end RemotionMCP
namespace RemotionMCP

/-- A `Scene` of `engine.ts`: scene type, duration in seconds (an exact
rational, standing for the JS number), and the `content` record as JSON
fields in insertion order. -/
structure Scene where
  type : String
  duration : ℚ
  content : List (String × Json)

/-- The `Theme` interface of `engine.ts` (all fields optional). -/
structure Theme where
  primaryColor : Option String
  secondaryColor : Option String
  backgroundColor : Option String
  fontFamily : Option String

/-- The `settings` object of `RenderVideoParams`. -/
structure VideoSettings where
  width : Option Nat
  height : Option Nat
  fps : Option Nat
  format : Option String

/-- The `RenderVideoParams` interface of `engine.ts`. -/
structure RenderVideoParams where
  scenes : List Scene
  theme : Option Theme
  settings : Option VideoSettings

/-- The `settings` object of `RenderImageParams`. -/
structure ImageSettings where
  width : Option Nat
  height : Option Nat
  format : Option String

/-- The `RenderImageParams` interface of `engine.ts`. -/
structure RenderImageParams where
  scene : Scene
  theme : Option Theme
  settings : Option ImageSettings
  frame : Option Nat

/-- A field that is present only when the optional value is. -/
def optField (k : String) : Option Json → List (String × Json)
  | some j => [(k, j)]
  | none => []

/-- JSON image of a scene (keys in the interface's order). -/
def sceneToJson (s : Scene) : Json :=
  .obj [("type", .str s.type), ("duration", .num s.duration),
        ("content", .obj s.content)]

/-- JSON fields of a theme: only the present optional fields, in order. -/
def themeFields (t : Theme) : List (String × Json) :=
  optField "primaryColor" (t.primaryColor.map Json.str) ++
  optField "secondaryColor" (t.secondaryColor.map Json.str) ++
  optField "backgroundColor" (t.backgroundColor.map Json.str) ++
  optField "fontFamily" (t.fontFamily.map Json.str)

/-- JSON fields of video settings: only the present fields, in order. -/
def videoSettingsFields (st : VideoSettings) : List (String × Json) :=
  optField "width" (st.width.map (fun n => Json.num n)) ++
  optField "height" (st.height.map (fun n => Json.num n)) ++
  optField "fps" (st.fps.map (fun n => Json.num n)) ++
  optField "format" (st.format.map Json.str)

/-- JSON image of `RenderVideoParams` as `JSON.stringify` sees it (absent
optional members are omitted). -/
def renderVideoParamsJson (p : RenderVideoParams) : Json :=
  .obj ([("scenes", .arr (p.scenes.map sceneToJson))] ++
    optField "theme" ((p.theme.map (fun t => Json.obj (themeFields t)))) ++
    optField "settings" ((p.settings.map (fun st => Json.obj (videoSettingsFields st)))))

/-- The deterministic mock-mode payload of `renderVideo`:
`` Buffer.from(`Mock video: ${JSON.stringify(params)}`) ``. -/
def mockVideoString (p : RenderVideoParams) : String :=
  "Mock video: " ++ jsonStr (renderVideoParamsJson p)

/-- JSON fields of image settings: only the present fields, in order. -/
def imageSettingsFields (st : ImageSettings) : List (String × Json) :=
  optField "width" (st.width.map (fun n => Json.num n)) ++
  optField "height" (st.height.map (fun n => Json.num n)) ++
  optField "format" (st.format.map Json.str)

/-- JSON image of `RenderImageParams` as `JSON.stringify` sees it. -/
def renderImageParamsJson (p : RenderImageParams) : Json :=
  .obj ([("scene", sceneToJson p.scene)] ++
    optField "theme" ((p.theme.map (fun t => Json.obj (themeFields t)))) ++
    optField "settings" ((p.settings.map (fun st => Json.obj (imageSettingsFields st)))) ++
    optField "frame" ((p.frame.map (fun n => Json.num n))))

/-- The deterministic mock-mode payload of `renderImage`. -/
def mockImageString (p : RenderImageParams) : String :=
  "Mock image: " ++ jsonStr (renderImageParamsJson p)

/-- JavaScript `x || d` on an optional number: `undefined` and the falsy `0`
both fall back to the default. -/
def jsOrNat : Option Nat → Nat → Nat
  | some n, d => if n = 0 then d else n
  | none, d => d

/-- JavaScript `x || d` on an optional string: `undefined` and the falsy
empty string both fall back to the default. -/
def jsOrStr : Option String → String → String
  | some s, d => if s = "" then d else s
  | none, d => d

/-- Embeds `RenderEngine.getCodec`. -/
def getCodec (format : String) : String :=
  if format == "webm" then "vp8"
  else if format == "gif" then "gif"
  else "h264"

/-- Embeds `RenderEngine.getMimeType`. -/
def getMimeType (format : String) : String :=
  if format == "webm" then "video/webm"
  else if format == "gif" then "image/gif"
  else "video/mp4"

/-- Filesystem events touching the per-job working directory, in program
order: `fs.mkdir(workDir)`, the write/read of the output file inside it, and
the `fs.rm(workDir, {recursive, force})` of the outer `finally`. -/
inductive FsEvent
  | mkdirWork
  | writeOutput
  | readOutput
  | rmWork
deriving DecidableEq, Repr

/-- Oracle for one render call: whether `@remotion/renderer` loaded at
`initialize()`, the outcome of each asynchronous backend/filesystem step
(`none` models a thrown exception), and whether the final working-directory
deletion succeeds (its rejection is swallowed by `.catch(() => {})`). -/
structure EngineOracle where
  rendererAvailable : Bool
  bundleRes : Option String
  selectOk : Bool
  renderOk : Bool
  readRes : Option String
  rmOk : Bool
deriving DecidableEq, Repr

/-- The `RenderResult` of `engine.ts`: buffer (as its character content),
MIME type, and metadata fields. -/
structure RenderResultM where
  buffer : String
  mimeType : String
  duration : Option ℚ
  width : Nat
  height : Nat
  fps : Option Nat
deriving DecidableEq, Repr

/-- A render call either returns a `RenderResult` or propagates an error. -/
inductive RunOutcome
  | ok (r : RenderResultM)
  | error
deriving DecidableEq, Repr

/-- Observable trace of one render call: its outcome, the frame count
computed for the backend (`Math.ceil(totalDuration * fps)`), and the
working-directory filesystem events in order. -/
structure RunTrace where
  outcome : RunOutcome
  durationInFrames : ℤ
  events : List FsEvent
deriving DecidableEq, Repr

/-- Embeds `RenderEngine.renderVideo`: resolve settings with defaults (`||`), sum
the scene durations, compute `Math.ceil(totalDuration * fps)`, create the
working directory; with a renderer, bundle, select the composition and
render (any throw propagates after cleanup); without one, write the mock
payload; read the output file back; the outer `finally` always removes the
working directory. -/
def renderVideoModel (o : EngineOracle) (p : RenderVideoParams) : RunTrace :=
  let format := jsOrStr (p.settings.bind (fun s => s.format)) "mp4"
  let width := jsOrNat (p.settings.bind (fun s => s.width)) 1920
  let height := jsOrNat (p.settings.bind (fun s => s.height)) 1080
  let fps := jsOrNat (p.settings.bind (fun s => s.fps)) 30
  let totalDuration : ℚ := (p.scenes.map (fun s => s.duration)).sum
  let durationInFrames : ℤ := ⌈totalDuration * (fps : ℚ)⌉
  if o.rendererAvailable then
    match o.bundleRes with
    | none => ⟨.error, durationInFrames, [.mkdirWork, .rmWork]⟩
    | some _bp =>
        if o.selectOk then
          if o.renderOk then
            match o.readRes with
            | some bytes =>
                ⟨.ok ⟨bytes, getMimeType format, some totalDuration, width, height,
                       some fps⟩,
                 durationInFrames, [.mkdirWork, .readOutput, .rmWork]⟩
            | none => ⟨.error, durationInFrames, [.mkdirWork, .rmWork]⟩
          else ⟨.error, durationInFrames, [.mkdirWork, .rmWork]⟩
        else ⟨.error, durationInFrames, [.mkdirWork, .rmWork]⟩
  else
    ⟨.ok ⟨mockVideoString p, getMimeType format, some totalDuration, width, height,
           some fps⟩,
     durationInFrames, [.mkdirWork, .writeOutput, .readOutput, .rmWork]⟩

/-- Embeds `RenderEngine.renderImage`: same working-directory discipline; format
defaults to `png`, metadata carries only width and height, the still frame
defaults via `??` to 15, and the backend still uses
`Math.ceil(scene.duration * 30)` frames. -/
def renderImageModel (o : EngineOracle) (p : RenderImageParams) : RunTrace :=
  let format := jsOrStr (p.settings.bind (fun s => s.format)) "png"
  let width := jsOrNat (p.settings.bind (fun s => s.width)) 1920
  let height := jsOrNat (p.settings.bind (fun s => s.height)) 1080
  let mime := if format == "jpeg" then "image/jpeg" else "image/png"
  let durationInFrames : ℤ := ⌈p.scene.duration * (30 : ℚ)⌉
  if o.rendererAvailable then
    match o.bundleRes with
    | none => ⟨.error, durationInFrames, [.mkdirWork, .rmWork]⟩
    | some _bp =>
        if o.selectOk then
          if o.renderOk then
            match o.readRes with
            | some bytes =>
                ⟨.ok ⟨bytes, mime, none, width, height, none⟩, durationInFrames,
                 [.mkdirWork, .readOutput, .rmWork]⟩
            | none => ⟨.error, durationInFrames, [.mkdirWork, .rmWork]⟩
          else ⟨.error, durationInFrames, [.mkdirWork, .rmWork]⟩
        else ⟨.error, durationInFrames, [.mkdirWork, .rmWork]⟩
  else
    ⟨.ok ⟨mockImageString p, mime, none, width, height, none⟩, durationInFrames,
     [.mkdirWork, .writeOutput, .readOutput, .rmWork]⟩

/-- Effect of one filesystem event on the existence of the working
directory; a failing `rm` (rejected promise, swallowed by the handler)
leaves the directory in place. -/
def applyFsEvent (rmOk : Bool) (dirExists : Bool) : FsEvent → Bool
  | .mkdirWork => true
  | .rmWork => if rmOk then false else dirExists
  | _ => dirExists

/-- Whether the working directory exists after a sequence of events. -/
def dirAfter (rmOk : Bool) (events : List FsEvent) : Bool :=
  events.foldl (applyFsEvent rmOk) false

end RemotionMCP
namespace RemotionMCP

/-- C6: for all oracle outcomes — normal return, mock-mode return, a throw
from the bundler, the composition selection, the backend render, or the
output read — both `renderVideo` and `renderImage` end with the
working-directory removal as their last filesystem event; when that removal
succeeds the directory no longer exists; and a rejected removal is
swallowed: the returned outcome (result or propagated error) is unchanged
whether or not the deletion fails. -/
theorem render_workdir_cleanup (o : EngineOracle) (p : RenderVideoParams)
    (q : RenderImageParams) :
    (renderVideoModel o p).events.getLast? = some .rmWork ∧
    (renderImageModel o q).events.getLast? = some .rmWork ∧
    (o.rmOk = true → dirAfter o.rmOk (renderVideoModel o p).events = false) ∧
    (o.rmOk = true → dirAfter o.rmOk (renderImageModel o q).events = false) ∧
    (∀ b, (renderVideoModel
        ⟨o.rendererAvailable, o.bundleRes, o.selectOk, o.renderOk, o.readRes, b⟩
        p).outcome = (renderVideoModel o p).outcome) ∧
    (∀ b, (renderImageModel
        ⟨o.rendererAvailable, o.bundleRes, o.selectOk, o.renderOk, o.readRes, b⟩
        q).outcome = (renderImageModel o q).outcome) := by
  obtain ⟨ra, br, so, ro, rr, rm⟩ := o
  cases ra <;> cases br <;> cases so <;> cases ro <;> cases rr <;>
    exact ⟨rfl, rfl, fun h => by subst h; rfl, fun h => by subst h; rfl,
           fun b => rfl, fun b => rfl⟩

/-- The scene of the spec's end-to-end example. -/
def exampleScene : Scene := ⟨"text", 2, [("title", .str "Hi")]⟩

/-- The parameters of the spec's end-to-end example:
`{scenes:[{type:"text",duration:2,content:{title:"Hi"}}], settings:{fps:30}}`. -/
def exampleParams : RenderVideoParams :=
  ⟨[exampleScene], none, some ⟨none, none, some 30, none⟩⟩

/-- An oracle for a deployment with no rendering backend installed, whose
working-directory deletion succeeds. -/
def mockOracle : EngineOracle := ⟨false, none, true, true, none, true⟩

/-- Witness for `render_workdir_cleanup` at a concrete input. -/
theorem render_workdir_cleanup_witness :
    dirAfter mockOracle.rmOk (renderVideoModel mockOracle exampleParams).events = false ∧
    (renderVideoModel mockOracle exampleParams).events.getLast? = some .rmWork :=
  ⟨(render_workdir_cleanup mockOracle exampleParams
      ⟨exampleScene, none, none, none⟩).2.2.1 rfl,
   (render_workdir_cleanup mockOracle exampleParams
      ⟨exampleScene, none, none, none⟩).1⟩

/-- C7: with no backend installed, the example render returns
`metadata.duration = 2` (the sum of the scene durations),
`metadata.fps = 30`, the fixed default dimensions 1920×1080, MIME type
`video/mp4` (default format `mp4`), and a non-empty buffer equal to the
deterministic mock placeholder encoding of the input parameters; the frame
count computed for the backend is `⌈2 × 30⌉ = 60`, and in general the
metadata duration of any successful render is the sum of all scene
durations while the frame count is `⌈totalSeconds × fps⌉`. -/
theorem renderVideo_mock_example :
    (renderVideoModel mockOracle exampleParams).outcome =
      .ok ⟨mockVideoString exampleParams, "video/mp4", some 2, 1920, 1080, some 30⟩ ∧
    mockVideoString exampleParams =
      "Mock video: \x7b\"scenes\":[\x7b\"type\":\"text\",\"duration\":2,\"content\":\x7b\"title\":\"Hi\"\x7d\x7d],\"settings\":\x7b\"fps\":30\x7d\x7d" ∧
    mockVideoString exampleParams ≠ "" ∧
    (renderVideoModel mockOracle exampleParams).durationInFrames = 60 ∧
    (∀ o p, (renderVideoModel o p).durationInFrames =
      ⌈((p.scenes.map (fun s => s.duration)).sum) *
        ((jsOrNat (p.settings.bind (fun s => s.fps)) 30 : Nat) : ℚ)⌉) ∧
    (∀ o p r, (renderVideoModel o p).outcome = .ok r →
      r.duration = some ((p.scenes.map (fun s => s.duration)).sum)) := by
  refine ⟨?_, ?_, ?_, ?_, ?_, ?_⟩
  · simp only [renderVideoModel, mockOracle, exampleParams, exampleScene,
      if_false, Bool.false_eq_true]
    norm_num [getMimeType, jsOrStr, jsOrNat]
    decide
  · decide
  · decide
  · simp only [renderVideoModel, mockOracle, exampleParams, exampleScene,
      if_false, Bool.false_eq_true]
    norm_num [jsOrNat]
  · intro o p
    obtain ⟨ra, br, so, ro, rr, rm⟩ := o
    cases ra <;> cases br <;> cases so <;> cases ro <;> cases rr <;> rfl
  · intro o p r h
    obtain ⟨ra, br, so, ro, rr, rm⟩ := o
    cases ra <;> cases br <;> cases so <;> cases ro <;> cases rr <;>
        simp only [renderVideoModel] at h <;>
      first
        | (injection h with h1; subst h1; rfl)
        | injection h

/-- Witness for `renderVideo_mock_example`'s quantified parts at a concrete
input. -/
theorem renderVideo_mock_example_witness :
    (renderVideoModel mockOracle exampleParams).durationInFrames =
      ⌈((exampleParams.scenes.map (fun s => s.duration)).sum) *
        ((jsOrNat (exampleParams.settings.bind (fun s => s.fps)) 30 : Nat) : ℚ)⌉ ∧
    (⟨mockVideoString exampleParams, "video/mp4", some 2, 1920, 1080,
        some 30⟩ : RenderResultM).duration =
      some ((exampleParams.scenes.map (fun s => s.duration)).sum) :=
  ⟨renderVideo_mock_example.2.2.2.2.1 mockOracle exampleParams,
   renderVideo_mock_example.2.2.2.2.2 mockOracle exampleParams
     ⟨mockVideoString exampleParams, "video/mp4", some 2, 1920, 1080, some 30⟩
     renderVideo_mock_example.1⟩

end RemotionMCP
